import Mathlib

/-!
Verification of `SierpinskyPeanoCurve.py` (Gjacquenot/SierpinskiCurve).

The Python source is shallowly embedded over exact rationals (`ℚ` stands for
the script's floats; every identity proved here is an exact-arithmetic fact).
Point sequences are parallel coordinate lists, as in the source.  Fallible
operations return `Except PyError`; `PyError.zeroDivisionError` models
Python's `ZeroDivisionError` (raised by `1.0/(a**2+b**2)` when the divisor is
zero) and `PyError.exception msg` models a plain `raise Exception(msg)`.
The constructors `invalidLineError`, `invalidPatternError` and
`invalidLevelError` are never produced by the embedded code; they exist so
that statements about those (spec-named) failures can be expressed.
-/

/-- Errors a run of the script can be claimed to surface. Only
`zeroDivisionError` and `exception` are ever produced by the embedded code. -/
inductive PyError where
  | zeroDivisionError : PyError
  | invalidLineError : PyError
  | invalidPatternError : PyError
  | invalidLevelError : PyError
  | exception : String → PyError
deriving DecidableEq

/-- Boolean success test for an `Except` value. -/
def exceptIsOk {ε α : Type} : Except ε α → Bool
  | .ok _ => true
  | .error _ => false

/-- Loop body of `symmetrize` (source lines 37-45): for each zipped point
`(x, y)` it computes the foot of the perpendicular `(xl, yl)` and appends
`2*xl - x`, `2*yl - y`. `zip` truncates to the shorter list, as Python's
`zip` does. -/
def symmetrizeCore (a b c : ℚ) (X Y : List ℚ) : List ℚ × List ℚ :=
  let den := 1 / (a ^ 2 + b ^ 2)
  ((X.zip Y).map (fun p => 2 * (den * (b ^ 2 * p.1 - a * b * p.2 - a * c)) - p.1),
   (X.zip Y).map (fun p => 2 * (den * (-(a * b) * p.1 + a ^ 2 * p.2 - b * c)) - p.2))

/-- `symmetrize` (source lines 33-45).  The first statement executed is
`den = 1.0/(a**2+b**2)`, which raises `ZeroDivisionError` when
`a**2+b**2 == 0`, before any point is processed. -/
def symmetrize (a b c : ℚ) (X Y : List ℚ) : Except PyError (List ℚ × List ℚ) :=
  if a ^ 2 + b ^ 2 = 0 then .error .zeroDivisionError
  else .ok (symmetrizeCore a b c X Y)

/-- Modelled from the spec's words (4.1): the orthogonal projection of `p`
onto the line `a*x + b*y + c = 0`:
`proj = p - ((a*p.x + b*p.y + c)/(a^2 + b^2)) * (a, b)`. -/
def projPoint (a b c : ℚ) (p : ℚ × ℚ) : ℚ × ℚ :=
  (p.1 - (a * p.1 + b * p.2 + c) / (a ^ 2 + b ^ 2) * a,
   p.2 - (a * p.1 + b * p.2 + c) / (a ^ 2 + b ^ 2) * b)

/-- Modelled from the spec's words (4.1): the mirror image `2*proj - p`. -/
def mirrorPoint (a b c : ℚ) (p : ℚ × ℚ) : ℚ × ℚ :=
  (2 * (projPoint a b c p).1 - p.1, 2 * (projPoint a b c p).2 - p.2)

lemma mirrorPoint_fst (a b c : ℚ) (h : a ^ 2 + b ^ 2 ≠ 0) (p : ℚ × ℚ) :
    2 * (1 / (a ^ 2 + b ^ 2) * (b ^ 2 * p.1 - a * b * p.2 - a * c)) - p.1 =
      (mirrorPoint a b c p).1 := by
  unfold mirrorPoint projPoint
  field_simp
  ring

lemma mirrorPoint_snd (a b c : ℚ) (h : a ^ 2 + b ^ 2 ≠ 0) (p : ℚ × ℚ) :
    2 * (1 / (a ^ 2 + b ^ 2) * (-(a * b) * p.1 + a ^ 2 * p.2 - b * c)) - p.2 =
      (mirrorPoint a b c p).2 := by
  unfold mirrorPoint projPoint
  field_simp
  ring

lemma mirrorPoint_involutive (a b c : ℚ) (h : a ^ 2 + b ^ 2 ≠ 0) (p : ℚ × ℚ) :
    mirrorPoint a b c (mirrorPoint a b c p) = p := by
  unfold mirrorPoint projPoint
  apply Prod.ext <;> (simp only []; field_simp; ring)

/-- On a non-degenerate line, `symmetrize` succeeds and maps every point to
its spec-side mirror image. -/
lemma symmetrize_points (a b c : ℚ) (h : a ^ 2 + b ^ 2 ≠ 0) (P : List (ℚ × ℚ)) :
    symmetrize a b c (P.map Prod.fst) (P.map Prod.snd) =
      .ok ((P.map (mirrorPoint a b c)).map Prod.fst,
           (P.map (mirrorPoint a b c)).map Prod.snd) := by
  unfold symmetrize symmetrizeCore
  rw [if_neg h]
  simp only [List.zip_map', List.map_map, Except.ok.injEq, Prod.mk.injEq]
  constructor
  · exact List.map_congr_left (fun p _ => by
      simpa using mirrorPoint_fst a b c h p)
  · exact List.map_congr_left (fun p _ => by
      simpa using mirrorPoint_snd a b c h p)

/-- C6: for every line `(a, b, c)` with `a^2 + b^2 ≠ 0` and every point
sequence, `symmetrize` (the spec's `reflect`) maps each point `p` to
`2*proj - p` where `proj` is the orthogonal projection of `p` onto the line
`a*x + b*y + c = 0`; being a Lean function, it is pure. -/
theorem c6_reflect_formula (a b c : ℚ) (P : List (ℚ × ℚ)) (h : a ^ 2 + b ^ 2 ≠ 0) :
    symmetrize a b c (P.map Prod.fst) (P.map Prod.snd) =
      .ok ((P.map (mirrorPoint a b c)).map Prod.fst,
           (P.map (mirrorPoint a b c)).map Prod.snd) :=
  symmetrize_points a b c h P

/-- Witness for C6 at the line `x = 0` and the single point `(3, 4)`. -/
theorem c6_reflect_formula_witness :
    symmetrize 1 0 0 ([(3, 4)].map Prod.fst) ([(3, 4)].map Prod.snd) =
      .ok (([(3, 4)].map (mirrorPoint 1 0 0)).map Prod.fst,
           (([((3 : ℚ), (4 : ℚ))].map (mirrorPoint 1 0 0)).map Prod.snd)) :=
  c6_reflect_formula 1 0 0 [(3, 4)] (by norm_num)

/-- C8: reflecting twice across the same non-degenerate line returns the
original point sequence exactly (exact arithmetic stands in for the spec's
floating-point tolerance). -/
theorem c8_reflect_involution (a b c : ℚ) (X Y : List ℚ)
    (h : a ^ 2 + b ^ 2 ≠ 0) (hlen : X.length = Y.length) :
    (symmetrize a b c X Y).bind (fun r => symmetrize a b c r.1 r.2) = .ok (X, Y) := by
  obtain ⟨P, hPX, hPY⟩ : ∃ P : List (ℚ × ℚ), P.map Prod.fst = X ∧ P.map Prod.snd = Y :=
    ⟨X.zip Y, List.map_fst_zip X Y hlen.le, List.map_snd_zip X Y hlen.ge⟩
  subst hPX
  subst hPY
  rw [symmetrize_points a b c h]
  simp only [Except.bind]
  rw [symmetrize_points a b c h]
  simp only [Except.ok.injEq, Prod.mk.injEq, List.map_map]
  constructor
  · exact List.map_congr_left (fun p _ => by
      simp [mirrorPoint_involutive a b c h p])
  · exact List.map_congr_left (fun p _ => by
      simp [mirrorPoint_involutive a b c h p])

/-- Witness for C8 across the anti-diagonal line at a concrete two-point
polyline. -/
theorem c8_reflect_involution_witness :
    (symmetrize 1 1 0 [5, 7] [2, 9]).bind (fun r => symmetrize 1 1 0 r.1 r.2) =
      .ok (([5, 7] : List ℚ), ([2, 9] : List ℚ)) :=
  c8_reflect_involution 1 1 0 [5, 7] [2, 9] (by norm_num) (by simp)

/-- C9 counterexample: on the degenerate line `a = b = 0`, `symmetrize`
fails with the division-by-zero error of `den = 1.0/(a**2+b**2)`, not with
an `InvalidLineError` (no such guard exists in the code). -/
theorem c9_counterexample :
    symmetrize 0 0 0 ([] : List ℚ) ([] : List ℚ) = .error .zeroDivisionError ∧
      symmetrize 0 0 0 ([] : List ℚ) ([] : List ℚ) ≠ .error .invalidLineError := by
  have h : (0 : ℚ) ^ 2 + 0 ^ 2 = 0 := by norm_num
  constructor
  · simp [symmetrize, h]
  · simp [symmetrize, h]

/-- C9 amended: for every degenerate line (`a^2 + b^2 = 0`) and every point
sequence, including the empty one, `symmetrize` fails with the (unguarded)
division-by-zero error raised while computing `1/(a^2+b^2)`, before any
point is processed. -/
theorem c9_degenerate_line (a b c : ℚ) (X Y : List ℚ) (h : a ^ 2 + b ^ 2 = 0) :
    symmetrize a b c X Y = .error .zeroDivisionError := by
  simp [symmetrize, h]

/-- Witness for C9 (amended) at the fully degenerate line and empty input. -/
theorem c9_degenerate_line_witness :
    symmetrize 0 0 0 ([] : List ℚ) ([] : List ℚ) = .error .zeroDivisionError :=
  c9_degenerate_line 0 0 0 [] [] (by norm_num)

/-- `generateSymmetries` (source lines 47-54): fills orientations 2-4 of a
pattern dictionary from orientation 1 (`np.flipud` is list reversal;
negation distributes over the reversal, `flipud(-v) = reverse(map neg v)`).
Orientation 1 is left untouched; ids outside 1-4 are never looked up by the
script (a lookup would be a Python `KeyError`), here they give `([], [])`. -/
def generateSymmetries (X1 Y1 : List ℚ) : ℕ → List ℚ × List ℚ
  | 1 => (X1, Y1)
  | 2 => ((X1.map (fun x => -x)).reverse, Y1.reverse)
  | 3 => (X1.reverse, (Y1.map (fun y => -y)).reverse)
  | 4 => ((X1.map (fun x => -x)).reverse, (Y1.map (fun y => -y)).reverse)
  | _ => ([], [])

/-- C7: `generateSymmetries` (the spec's `buildFourOrientations`) leaves
orientation 1 equal to the seed; orientation 2 is the point-order reversal
with X negated, orientation 3 the reversal with Y negated, orientation 4 the
reversal with both negated; orientations 2-4 keep the seed's point count. -/
theorem c7_four_orientations (X Y : List ℚ) (P : List (ℚ × ℚ)) :
    generateSymmetries X Y 1 = (X, Y) ∧
    generateSymmetries (P.map Prod.fst) (P.map Prod.snd) 2 =
      (P.reverse.map (fun p => -p.1), P.reverse.map (fun p => p.2)) ∧
    generateSymmetries (P.map Prod.fst) (P.map Prod.snd) 3 =
      (P.reverse.map (fun p => p.1), P.reverse.map (fun p => -p.2)) ∧
    generateSymmetries (P.map Prod.fst) (P.map Prod.snd) 4 =
      (P.reverse.map (fun p => -p.1), P.reverse.map (fun p => -p.2)) ∧
    (∀ k, (k = 2 ∨ k = 3 ∨ k = 4) →
      ((generateSymmetries X Y k).1.length = X.length ∧
       (generateSymmetries X Y k).2.length = Y.length)) := by
  refine ⟨rfl, ?_, ?_, ?_, ?_⟩
  · simp [generateSymmetries, List.map_reverse, List.map_map, Function.comp]
  · simp [generateSymmetries, List.map_reverse, List.map_map, Function.comp]
  · simp [generateSymmetries, List.map_reverse, List.map_map, Function.comp]
  · rintro k (rfl | rfl | rfl) <;> simp [generateSymmetries]

/-- Witness for C7 at a concrete two-point seed. -/
theorem c7_four_orientations_witness :
    generateSymmetries [1, 2] [3, 4] 1 = (([1, 2] : List ℚ), ([3, 4] : List ℚ)) ∧
    generateSymmetries ([((1 : ℚ), (3 : ℚ)), (2, 4)].map Prod.fst)
        ([((1 : ℚ), (3 : ℚ)), (2, 4)].map Prod.snd) 2 =
      ([((1 : ℚ), (3 : ℚ)), (2, 4)].reverse.map (fun p => -p.1),
       [((1 : ℚ), (3 : ℚ)), (2, 4)].reverse.map (fun p => p.2)) ∧
    generateSymmetries ([((1 : ℚ), (3 : ℚ)), (2, 4)].map Prod.fst)
        ([((1 : ℚ), (3 : ℚ)), (2, 4)].map Prod.snd) 3 =
      ([((1 : ℚ), (3 : ℚ)), (2, 4)].reverse.map (fun p => p.1),
       [((1 : ℚ), (3 : ℚ)), (2, 4)].reverse.map (fun p => -p.2)) ∧
    generateSymmetries ([((1 : ℚ), (3 : ℚ)), (2, 4)].map Prod.fst)
        ([((1 : ℚ), (3 : ℚ)), (2, 4)].map Prod.snd) 4 =
      ([((1 : ℚ), (3 : ℚ)), (2, 4)].reverse.map (fun p => -p.1),
       [((1 : ℚ), (3 : ℚ)), (2, 4)].reverse.map (fun p => -p.2)) ∧
    (∀ k, (k = 2 ∨ k = 3 ∨ k = 4) →
      ((generateSymmetries [1, 2] [3, 4] k).1.length = ([1, 2] : List ℚ).length ∧
       (generateSymmetries [1, 2] [3, 4] k).2.length = ([3, 4] : List ℚ).length)) :=
  c7_four_orientations [1, 2] [3, 4] [(1, 3), (2, 4)]

/-- Pattern family built by `Pattern.__init__` (source lines 71-85): for
each of the three kinds (plain, connector-start `S`, connector-end `E`) a
mapping from orientation id to a coordinate list. -/
structure Pattern where
  pattern_X : ℕ → List ℚ
  pattern_Y : ℕ → List ℚ
  patternS_X : ℕ → List ℚ
  patternS_Y : ℕ → List ℚ
  patternE_X : ℕ → List ℚ
  patternE_Y : ℕ → List ℚ

/-- `Pattern.__init__` (source lines 72-85), with the three `symmetrize`
calls run through the fallible wrapper: plain = root appended with the
reversed reflection across `-x - y = 0`; connector-start = root minus its
last point appended with the reversed reflection across `x - y + 1 = 0`;
connector-end = reflection (not reversed) of connector-start orientation 1
across `x + y = 0`; each kind expanded to 4 orientations.  The constructor
performs no validation of the root pattern. -/
def Pattern.init (rootX rootY : List ℚ) : Except PyError Pattern :=
  match symmetrize (-1) (-1) 0 rootX rootY with
  | .error e => .error e
  | .ok s =>
    let p1X := rootX ++ s.1.reverse
    let p1Y := rootY ++ s.2.reverse
    match symmetrize 1 (-1) 1 rootX.dropLast rootY.dropLast with
    | .error e => .error e
    | .ok t =>
      let pS1X := rootX.dropLast ++ t.1.reverse
      let pS1Y := rootY.dropLast ++ t.2.reverse
      match symmetrize 1 1 0 pS1X pS1Y with
      | .error e => .error e
      | .ok u =>
        .ok { pattern_X := fun k => (generateSymmetries p1X p1Y k).1,
              pattern_Y := fun k => (generateSymmetries p1X p1Y k).2,
              patternS_X := fun k => (generateSymmetries pS1X pS1Y k).1,
              patternS_Y := fun k => (generateSymmetries pS1X pS1Y k).2,
              patternE_X := fun k => (generateSymmetries u.1 u.2 k).1,
              patternE_Y := fun k => (generateSymmetries u.1 u.2 k).2 }

/-- The pattern family `Pattern.init` always returns (its three reflection
lines are the fixed non-degenerate constants of the source). -/
def Pattern.core (rootX rootY : List ℚ) : Pattern :=
  let s := symmetrizeCore (-1) (-1) 0 rootX rootY
  let p1X := rootX ++ s.1.reverse
  let p1Y := rootY ++ s.2.reverse
  let t := symmetrizeCore 1 (-1) 1 rootX.dropLast rootY.dropLast
  let pS1X := rootX.dropLast ++ t.1.reverse
  let pS1Y := rootY.dropLast ++ t.2.reverse
  let u := symmetrizeCore 1 1 0 pS1X pS1Y
  { pattern_X := fun k => (generateSymmetries p1X p1Y k).1,
    pattern_Y := fun k => (generateSymmetries p1X p1Y k).2,
    patternS_X := fun k => (generateSymmetries pS1X pS1Y k).1,
    patternS_Y := fun k => (generateSymmetries pS1X pS1Y k).2,
    patternE_X := fun k => (generateSymmetries u.1 u.2 k).1,
    patternE_Y := fun k => (generateSymmetries u.1 u.2 k).2 }

lemma Pattern.init_eq (rootX rootY : List ℚ) :
    Pattern.init rootX rootY = .ok (Pattern.core rootX rootY) := by
  have h1 : ((-1 : ℚ)) ^ 2 + (-1) ^ 2 ≠ 0 := by norm_num
  have h2 : ((1 : ℚ)) ^ 2 + (-1) ^ 2 ≠ 0 := by norm_num
  have h3 : ((1 : ℚ)) ^ 2 + (1 : ℚ) ^ 2 ≠ 0 := by norm_num
  simp [Pattern.init, Pattern.core, symmetrize, h1, h2, h3]

/-- Equal-length check of the `__main__` block (source lines 151-152); it
raises a plain `Exception`, and it is the only seed validation anywhere. -/
def cliValidate (X Y : List ℚ) : Except PyError Unit :=
  if X.length ≠ Y.length then
    .error (.exception "X and Y cordinates should have the same number of elements")
  else .ok ()

/-- C4 counterexample: a root pattern with X of length 3 and Y of length 2
is accepted by the constructor — it returns a pattern (whose orientation-1
plain coordinate lists end up with mismatched lengths 5 and 4) instead of
failing, and in particular never yields an `InvalidPatternError`. -/
theorem c4_counterexample :
    exceptIsOk (Pattern.init [-1/2, -1/2, -3/4] [0, 1/4]) = true ∧
      Pattern.init [-1/2, -1/2, -3/4] [0, 1/4] ≠ .error .invalidPatternError ∧
      ((Pattern.core [-1/2, -1/2, -3/4] [0, 1/4]).pattern_X 1).length = 5 ∧
      ((Pattern.core [-1/2, -1/2, -3/4] [0, 1/4]).pattern_Y 1).length = 4 := by
  refine ⟨?_, ?_, ?_, ?_⟩
  · rw [Pattern.init_eq]; rfl
  · rw [Pattern.init_eq]; simp
  · simp [Pattern.core, symmetrizeCore, generateSymmetries]
  · simp [Pattern.core, symmetrizeCore, generateSymmetries]

/-- C4 amended: pattern construction never fails — `Pattern.__init__`
performs no validation at all (neither a 3-point minimum nor an X/Y length
check), so it succeeds on every input; the only seed validation in the
program is the equal-length check of the `__main__` block, which raises a
generic `Exception` (not an `InvalidPatternError`) exactly when the X and Y
lists differ in length, and no check for fewer than 3 points exists. -/
theorem c4_no_pattern_validation (X Y : List ℚ) :
    Pattern.init X Y = .ok (Pattern.core X Y) ∧
    (cliValidate X Y = .ok () ↔ X.length = Y.length) ∧
    (cliValidate X Y =
        .error (.exception "X and Y cordinates should have the same number of elements") ↔
      X.length ≠ Y.length) := by
  refine ⟨Pattern.init_eq X Y, ?_, ?_⟩ <;>
    by_cases h : X.length = Y.length <;> simp [cliValidate, h]

lemma symmetrizeCore_length (a b c : ℚ) (X Y : List ℚ) :
    (symmetrizeCore a b c X Y).1.length = min X.length Y.length ∧
    (symmetrizeCore a b c X Y).2.length = min X.length Y.length := by
  simp [symmetrizeCore]

lemma generateSymmetries_length (X1 Y1 : List ℚ) (k : ℕ)
    (hk : k = 1 ∨ k = 2 ∨ k = 3 ∨ k = 4) :
    (generateSymmetries X1 Y1 k).1.length = X1.length ∧
    (generateSymmetries X1 Y1 k).2.length = Y1.length := by
  rcases hk with rfl | rfl | rfl | rfl <;> simp [generateSymmetries]

/-- C10: for a root pattern with `n ≥ 3` points and equal-length coordinate
lists, every orientation of the plain pattern has `2n` points, and every
orientation of the connector-start and connector-end patterns has `2(n-1)`
points; within each kind and orientation the X and Y lists have equal
length, and every polyline has at least 2 points. -/
theorem c10_pattern_library_sizes (X Y : List ℚ)
    (hlen : X.length = Y.length) (h3 : 3 ≤ X.length) :
    Pattern.init X Y = .ok (Pattern.core X Y) ∧
    ∀ k, (k = 1 ∨ k = 2 ∨ k = 3 ∨ k = 4) →
      ((Pattern.core X Y).pattern_X k).length = 2 * X.length ∧
      ((Pattern.core X Y).pattern_Y k).length = 2 * X.length ∧
      ((Pattern.core X Y).patternS_X k).length = 2 * (X.length - 1) ∧
      ((Pattern.core X Y).patternS_Y k).length = 2 * (X.length - 1) ∧
      ((Pattern.core X Y).patternE_X k).length = 2 * (X.length - 1) ∧
      ((Pattern.core X Y).patternE_Y k).length = 2 * (X.length - 1) ∧
      2 ≤ ((Pattern.core X Y).pattern_X k).length ∧
      2 ≤ ((Pattern.core X Y).patternS_X k).length ∧
      2 ≤ ((Pattern.core X Y).patternE_X k).length := by
  refine ⟨Pattern.init_eq X Y, ?_⟩
  intro k hk
  simp only [Pattern.core]
  rcases hk with rfl | rfl | rfl | rfl <;>
    simp [generateSymmetries, symmetrizeCore, hlen] <;> omega

/-- Witness for C10 at the default seed of the script. -/
theorem c10_pattern_library_sizes_witness :
    Pattern.init [-1/2, -1/2, -3/4] [0, 1/4, 1/2] =
      .ok (Pattern.core [-1/2, -1/2, -3/4] [0, 1/4, 1/2]) ∧
    ∀ k, (k = 1 ∨ k = 2 ∨ k = 3 ∨ k = 4) →
      ((Pattern.core [-1/2, -1/2, -3/4] [0, 1/4, 1/2]).pattern_X k).length =
        2 * ([-1/2, -1/2, -3/4] : List ℚ).length ∧
      ((Pattern.core [-1/2, -1/2, -3/4] [0, 1/4, 1/2]).pattern_Y k).length =
        2 * ([-1/2, -1/2, -3/4] : List ℚ).length ∧
      ((Pattern.core [-1/2, -1/2, -3/4] [0, 1/4, 1/2]).patternS_X k).length =
        2 * (([-1/2, -1/2, -3/4] : List ℚ).length - 1) ∧
      ((Pattern.core [-1/2, -1/2, -3/4] [0, 1/4, 1/2]).patternS_Y k).length =
        2 * (([-1/2, -1/2, -3/4] : List ℚ).length - 1) ∧
      ((Pattern.core [-1/2, -1/2, -3/4] [0, 1/4, 1/2]).patternE_X k).length =
        2 * (([-1/2, -1/2, -3/4] : List ℚ).length - 1) ∧
      ((Pattern.core [-1/2, -1/2, -3/4] [0, 1/4, 1/2]).patternE_Y k).length =
        2 * (([-1/2, -1/2, -3/4] : List ℚ).length - 1) ∧
      2 ≤ ((Pattern.core [-1/2, -1/2, -3/4] [0, 1/4, 1/2]).pattern_X k).length ∧
      2 ≤ ((Pattern.core [-1/2, -1/2, -3/4] [0, 1/4, 1/2]).patternS_X k).length ∧
      2 ≤ ((Pattern.core [-1/2, -1/2, -3/4] [0, 1/4, 1/2]).patternE_X k).length :=
  c10_pattern_library_sizes [-1/2, -1/2, -3/4] [0, 1/4, 1/2] (by simp) (by simp)

/-- Node geometry as returned by `Steinhaus.get`: component 0 is the list of
X polylines, component 1 the list of Y polylines (one polyline for a plain
node, two for a connector junction).  The source returns a 2-tuple in the
plain branch and a 2-element list in the connector branch; both are indexed
`[0]`/`[1]` identically, so a single pair type models both. -/
abbrev Geom := List (List ℚ) × List (List ℚ)

/-- Index-carrying accumulation of `getOffset`'s loop (source lines 56-69):
the digit at zero-based position `i` contributes `±1/2^(i+1)` to X (minus
when odd) and `±1/2^(i+1)` to Y (plus when `< 3`). -/
def getOffsetAux : List ℕ → ℕ → ℚ × ℚ
  | [], _ => (0, 0)
  | k :: ks, i =>
    let scale : ℚ := 1 / 2 ^ (i + 1)
    let rest := getOffsetAux ks (i + 1)
    ((if k % 2 = 1 then -scale else scale) + rest.1,
     (if k < 3 then scale else -scale) + rest.2)

/-- `getOffset` (source lines 56-69), on an address given as a digit list. -/
def getOffset (key : List ℕ) : ℚ × ℚ := getOffsetAux key 0

/-- Modelled from the spec's words (4.3, offset): the X offset as an indexed
sum over the digits, `-1/2^(i+1)` per odd digit and `+1/2^(i+1)` per even
digit at zero-based position `i`. -/
def specOffsetX (key : List ℕ) : ℚ :=
  ∑ i ∈ Finset.range key.length,
    (if key.getD i 0 % 2 = 1 then -(1 : ℚ) / 2 ^ (i + 1) else 1 / 2 ^ (i + 1))

/-- Modelled from the spec's words (4.3, offset): the Y offset as an indexed
sum over the digits, `+1/2^(i+1)` per digit `< 3` and `-1/2^(i+1)` per digit
`≥ 3` at zero-based position `i`. -/
def specOffsetY (key : List ℕ) : ℚ :=
  ∑ i ∈ Finset.range key.length,
    (if key.getD i 0 < 3 then (1 : ℚ) / 2 ^ (i + 1) else -(1 : ℚ) / 2 ^ (i + 1))

/-- Scale-then-translate of one coordinate list, the `scale*V+offset`
of `Steinhaus.get`. -/
def scaleAdd (s o : ℚ) (v : List ℚ) : List ℚ := v.map (fun x => s * x + o)

/-- The connector-junction geometry of `Steinhaus.get`'s first branch
(source lines 101-102): connector-start and connector-end polylines for
orientation `k`, both with the same scale `1/2^(level-1)` and offset. -/
def connectorGeom (pat : Pattern) (k level : ℕ) (offset : ℚ × ℚ) : Geom :=
  let scale : ℚ := 1 / 2 ^ (level - 1)
  ([scaleAdd scale offset.1 (pat.patternS_X k), scaleAdd scale offset.1 (pat.patternE_X k)],
   [scaleAdd scale offset.2 (pat.patternS_Y k), scaleAdd scale offset.2 (pat.patternE_Y k)])

/-- The plain-node geometry of `Steinhaus.get`'s second branch (source line
104): exactly one plain-pattern polyline for orientation `k`. -/
def plainGeom (pat : Pattern) (k level : ℕ) (offset : ℚ × ℚ) : Geom :=
  let scale : ℚ := 1 / 2 ^ (level - 1)
  ([scaleAdd scale offset.1 (pat.pattern_X k)], [scaleAdd scale offset.2 (pat.pattern_Y k)])

/-- `Steinhaus.get` (source lines 98-104).  `5 - idParent` is natural
subtraction here; for the reachable values `idParent ≤ 4` it agrees with the
source's integer subtraction, and for `id ≥ 1` the comparison agrees always. -/
def Steinhaus.get (pat : Pattern) (id idParent level : ℕ) (offset : ℚ × ℚ)
    (nParent : ℕ) : Geom :=
  if id = 5 - idParent ∨ (nParent = 2 ∧ idParent = id) then
    connectorGeom pat id level offset
  else
    plainGeom pat id level offset

/-- `Steinhaus.getFromKey` (source lines 105-106): resolve an address by its
last digit (`key[-1]`), its parent's incoming digit (`key[-2]`), its length,
and the offset of its prefix. -/
def Steinhaus.getFromKey (pat : Pattern) (key : List ℕ) (nParent : ℕ) : Geom :=
  Steinhaus.get pat (key.getLastD 0) (key.dropLast.getLastD 0) key.length
    (getOffset key.dropLast) nParent

/-- Level 1 (source line 91): addresses `"1"`-`"4"`, each resolved by
`get(k)` with the default arguments `idParent = 0`, `level = 1`,
`offset = (0, 0)`, `nParent = 1`. -/
def Steinhaus.level1 (pat : Pattern) : List (List ℕ × Geom) :=
  [1, 2, 3, 4].map (fun k => ([k], Steinhaus.get pat k 0 1 (0, 0) 1))

/-- `Steinhaus.generateLevel` (source lines 94-97): every address of the
previous level spawns the four children obtained by appending one digit;
the child's `nParent` is `len(lines[0])` of its parent, i.e. the number of
X polylines of the parent's geometry (1 for plain, 2 for connector). -/
def Steinhaus.generateLevel (pat : Pattern) (prev : List (List ℕ × Geom)) :
    List (List ℕ × Geom) :=
  prev.flatMap (fun e =>
    [1, 2, 3, 4].map (fun k =>
      (e.1 ++ [k], Steinhaus.getFromKey pat (e.1 ++ [k]) e.2.1.length)))

/-- Contents of `self.lines[d]` for `d ≥ 1`, as built by `__init__`:
level 1 directly, each later level from its predecessor. -/
def Steinhaus.linesAt (pat : Pattern) : ℕ → List (List ℕ × Geom)
  | 0 => []
  | 1 => Steinhaus.level1 pat
  | n + 2 => Steinhaus.generateLevel pat (Steinhaus.linesAt pat (n + 1))

/-- The level dictionary built by `Steinhaus.__init__` for a requested depth
`lvl` (an arbitrary integer, as in Python): key 1 is always present (line 91
runs unconditionally), and keys `2..lvl` are added by the loop
`range(2, lvl+1)`; any other key is absent. -/
def Steinhaus.linesFor (lvl : ℤ) (pat : Pattern) (n : ℤ) : List (List ℕ × Geom) :=
  if n = 1 ∨ (2 ≤ n ∧ n ≤ lvl) then Steinhaus.linesAt pat n.toNat else []

/-- State of a constructed `Steinhaus` object. -/
structure Steinhaus where
  level : ℤ
  pattern : Pattern
  lines : ℤ → List (List ℕ × Geom)

/-- `Steinhaus.__init__` (source lines 88-93): build the pattern family,
seed level 1, then generate levels `2..level`.  No depth validation is
performed. -/
def Steinhaus.init (lvl : ℤ) (rootX rootY : List ℚ) : Except PyError Steinhaus :=
  match Pattern.init rootX rootY with
  | .error e => .error e
  | .ok pat => .ok { level := lvl, pattern := pat, lines := Steinhaus.linesFor lvl pat }

lemma connectorGeom_ne_plainGeom (pat : Pattern) (k level k' level' : ℕ)
    (o o' : ℚ × ℚ) : connectorGeom pat k level o ≠ plainGeom pat k' level' o' := by
  intro h
  have hl := congrArg (fun g : Geom => g.1.length) h
  simp [connectorGeom, plainGeom] at hl

/-- C1: a child with orientation id `k ∈ {1,2,3,4}` resolves to the
connector-junction geometry (connector-start and connector-end polylines,
same scale and offset) exactly when `k = 5 - idParent` (integer arithmetic,
as in the source) or `nParent = 2 ∧ k = idParent`, and to the single
plain-pattern polyline otherwise; at level 1 (`idParent = 0`, `nParent = 1`)
all four nodes are plain, so no connector junction occurs. -/
theorem c1_connector_rule (pat : Pattern) (k idParent nParent level : ℕ)
    (off : ℚ × ℚ) (hk1 : 1 ≤ k) (hk4 : k ≤ 4) :
    (Steinhaus.get pat k idParent level off nParent = connectorGeom pat k level off ↔
      ((k : ℤ) = 5 - (idParent : ℤ) ∨ (nParent = 2 ∧ k = idParent))) ∧
    (Steinhaus.get pat k idParent level off nParent = plainGeom pat k level off ↔
      ¬((k : ℤ) = 5 - (idParent : ℤ) ∨ (nParent = 2 ∧ k = idParent))) ∧
    (Steinhaus.level1 pat).length = 4 ∧
    (∀ e ∈ Steinhaus.level1 pat, e.2 = plainGeom pat (e.1.getLastD 0) 1 (0, 0)) := by
  have hcond : (k = 5 - idParent ∨ (nParent = 2 ∧ idParent = k)) ↔
      ((k : ℤ) = 5 - (idParent : ℤ) ∨ (nParent = 2 ∧ k = idParent)) := by
    omega
  refine ⟨?_, ?_, rfl, ?_⟩
  · by_cases h : k = 5 - idParent ∨ (nParent = 2 ∧ idParent = k)
    · exact iff_of_true (by rw [Steinhaus.get, if_pos h]) (hcond.mp h)
    · refine iff_of_false ?_ (fun hz => h (hcond.mpr hz))
      rw [Steinhaus.get, if_neg h]
      exact fun he => connectorGeom_ne_plainGeom pat k level k level off off he.symm
  · by_cases h : k = 5 - idParent ∨ (nParent = 2 ∧ idParent = k)
    · refine iff_of_false ?_ (fun hz => hz (hcond.mp h))
      rw [Steinhaus.get, if_pos h]
      exact connectorGeom_ne_plainGeom pat k level k level off off
    · exact iff_of_true (by rw [Steinhaus.get, if_neg h]) (fun hz => h (hcond.mpr hz))
  · intro e he
    simp only [Steinhaus.level1, List.mem_map, List.mem_cons,
      List.not_mem_nil, or_false] at he
    obtain ⟨k', hk', rfl⟩ := he
    rcases hk' with rfl | rfl | rfl | rfl <;> simp [Steinhaus.get, List.getLastD]

/-- Witness for C1 at a seam position: `k = 4`, `idParent = 1`, `nParent = 1`,
level 2. -/
theorem c1_connector_rule_witness :
    (Steinhaus.get (Pattern.core [] []) 4 1 2 (0, 0) 1 =
        connectorGeom (Pattern.core [] []) 4 2 (0, 0) ↔
      (((4 : ℕ) : ℤ) = 5 - ((1 : ℕ) : ℤ) ∨ ((1 : ℕ) = 2 ∧ (4 : ℕ) = 1))) ∧
    (Steinhaus.get (Pattern.core [] []) 4 1 2 (0, 0) 1 =
        plainGeom (Pattern.core [] []) 4 2 (0, 0) ↔
      ¬(((4 : ℕ) : ℤ) = 5 - ((1 : ℕ) : ℤ) ∨ ((1 : ℕ) = 2 ∧ (4 : ℕ) = 1))) ∧
    (Steinhaus.level1 (Pattern.core [] [])).length = 4 ∧
    (∀ e ∈ Steinhaus.level1 (Pattern.core [] []),
      e.2 = plainGeom (Pattern.core [] []) (e.1.getLastD 0) 1 (0, 0)) :=
  c1_connector_rule (Pattern.core [] []) 4 1 1 2 (0, 0) (by decide) (by decide)

/-- C5 counterexample: requesting depth 0 (< 1) does not fail — construction
succeeds (no `InvalidLevelError` exists in the code) and level 1 is still
produced, with its 4 root nodes, because line 91 runs before the
`range(2, level+1)` loop. -/
theorem c5_counterexample :
    (Steinhaus.init 0 [] []).toOption.map (fun s => (s.lines 1).length) = some 4 ∧
      Steinhaus.init 0 [] [] ≠ .error .invalidLevelError := by
  constructor
  · simp [Steinhaus.init, Pattern.init_eq, Steinhaus.linesFor, Steinhaus.linesAt,
      Steinhaus.level1, Except.toOption]
  · simp [Steinhaus.init, Pattern.init_eq]

/-- C5 amended: no depth validation exists.  For every requested depth
(zero and negative included) construction succeeds; level 1 is always
produced, holding exactly 4 nodes, and no level beyond `max(depth, 1)` is
ever present. -/
theorem c5_no_depth_validation (lvl : ℤ) (X Y : List ℚ) :
    Steinhaus.init lvl X Y =
      .ok { level := lvl, pattern := Pattern.core X Y,
            lines := Steinhaus.linesFor lvl (Pattern.core X Y) } ∧
    (Steinhaus.linesFor lvl (Pattern.core X Y) 1).length = 4 ∧
    (∀ n : ℤ, n ≠ 1 → lvl < n → Steinhaus.linesFor lvl (Pattern.core X Y) n = []) := by
  refine ⟨?_, ?_, ?_⟩
  · simp [Steinhaus.init, Pattern.init_eq]
  · simp [Steinhaus.linesFor, Steinhaus.linesAt, Steinhaus.level1]
  · intro n h1 h2
    rw [Steinhaus.linesFor, if_neg]
    omega

/-- Witness for C5 (amended) at depth 0 and the empty seed, sampling the
absent level 5. -/
theorem c5_no_depth_validation_witness :
    Steinhaus.init 0 [] [] =
      .ok { level := 0, pattern := Pattern.core [] [],
            lines := Steinhaus.linesFor 0 (Pattern.core [] []) } ∧
    (Steinhaus.linesFor 0 (Pattern.core [] []) 1).length = 4 ∧
    Steinhaus.linesFor 0 (Pattern.core [] []) 5 = [] :=
  ⟨(c5_no_depth_validation 0 [] []).1, (c5_no_depth_validation 0 [] []).2.1,
    (c5_no_depth_validation 0 [] []).2.2 5 (by decide) (by decide)⟩

lemma getOffsetAux_eq (key : List ℕ) : ∀ i : ℕ,
    getOffsetAux key i =
      (∑ j ∈ Finset.range key.length,
         (if key.getD j 0 % 2 = 1 then -(1 : ℚ) / 2 ^ (i + j + 1) else 1 / 2 ^ (i + j + 1)),
       ∑ j ∈ Finset.range key.length,
         (if key.getD j 0 < 3 then (1 : ℚ) / 2 ^ (i + j + 1)
          else -(1 : ℚ) / 2 ^ (i + j + 1))) := by
  induction key with
  | nil => intro i; simp [getOffsetAux]
  | cons k ks ih =>
    intro i
    simp only [getOffsetAux, ih (i + 1), List.length_cons]
    rw [Prod.mk.injEq]
    constructor <;>
    · rw [Finset.sum_range_succ']
      simp only [List.getD_cons_succ, List.getD_cons_zero, Nat.add_zero, neg_div,
        show ∀ j : ℕ, i + (j + 1) + 1 = i + 1 + j + 1 from fun j => by omega]
      rw [add_comm]

/-- The loop of `getOffset` computes exactly the spec's per-digit indexed
sums. -/
lemma getOffset_eq_spec (key : List ℕ) :
    getOffset key = (specOffsetX key, specOffsetY key) := by
  rw [getOffset, getOffsetAux_eq key 0]
  simp [specOffsetX, specOffsetY]

/-- Every entry of level `d` resolves, from its address alone, to the
pattern-family polylines of its final digit at scale `1/2^(d-1)`, translated
by the spec's accumulated offset of the address prefix. -/
lemma linesAt_resolved (pat : Pattern) :
    ∀ (d : ℕ) (addr : List ℕ) (g : Geom), (addr, g) ∈ Steinhaus.linesAt pat d →
      addr.length = d ∧
      (g = plainGeom pat (addr.getLastD 0) d
            (specOffsetX addr.dropLast, specOffsetY addr.dropLast) ∨
       g = connectorGeom pat (addr.getLastD 0) d
            (specOffsetX addr.dropLast, specOffsetY addr.dropLast)) := by
  intro d
  induction d with
  | zero => intro addr g h; simp [Steinhaus.linesAt] at h
  | succ n ih =>
    intro addr g hmem
    cases n with
    | zero =>
      simp only [Steinhaus.linesAt, Steinhaus.level1, List.mem_map, List.mem_cons,
        List.not_mem_nil, or_false] at hmem
      obtain ⟨k, hk, hpair⟩ := hmem
      rw [Prod.ext_iff] at hpair
      obtain ⟨h1, h2⟩ := hpair
      simp only at h1 h2
      subst h1
      subst h2
      refine ⟨rfl, Or.inl ?_⟩
      rcases hk with rfl | rfl | rfl | rfl <;>
        simp [Steinhaus.get, specOffsetX, specOffsetY]
    | succ m =>
      simp only [Steinhaus.linesAt, Steinhaus.generateLevel, List.mem_flatMap,
        List.mem_map] at hmem
      obtain ⟨e, heprev, k, hk, hpair⟩ := hmem
      rw [Prod.ext_iff] at hpair
      obtain ⟨h1, h2⟩ := hpair
      simp only at h1 h2
      subst h1
      subst h2
      obtain ⟨hlen, -⟩ := ih e.1 e.2 (by simpa using heprev)
      have hlen2 : (e.1 ++ [k]).length = m + 1 + 1 := by simp [hlen]
      refine ⟨hlen2, ?_⟩
      rw [Steinhaus.getFromKey, List.dropLast_concat, getOffset_eq_spec, hlen2,
        Steinhaus.get]
      by_cases hcond : ((e.1 ++ [k]).getLastD 0 =
            5 - e.1.getLastD 0 ∨
          (e.2.1.length = 2 ∧ e.1.getLastD 0 = (e.1 ++ [k]).getLastD 0))
      · rw [if_pos hcond]
        exact Or.inr rfl
      · rw [if_neg hcond]
        exact Or.inl rfl

/-- C2: every node address of length `d` present at level `d` resolves to
the pattern-family polyline(s) of its final digit, multiplied by the scale
`1/2^(d-1)` (built into `plainGeom`/`connectorGeom` at level `d`) and
translated by the offset accumulated over the address's digits excluding the
final one, where position `i` contributes `-1/2^(i+1)` to X for an odd digit
and `+1/2^(i+1)` for an even one, and `+1/2^(i+1)` to Y for a digit `< 3`
and `-1/2^(i+1)` otherwise. -/
theorem c2_scale_and_offset (pat : Pattern) (d : ℕ) (addr : List ℕ) (g : Geom)
    (hmem : (addr, g) ∈ Steinhaus.linesAt pat d) :
    addr.length = d ∧
    (g = plainGeom pat (addr.getLastD 0) d
          (specOffsetX addr.dropLast, specOffsetY addr.dropLast) ∨
     g = connectorGeom pat (addr.getLastD 0) d
          (specOffsetX addr.dropLast, specOffsetY addr.dropLast)) :=
  linesAt_resolved pat d addr g hmem

/-- Witness for C2 at the empty seed pattern, level 2, address `[1,1]`. -/
theorem c2_scale_and_offset_witness :
    ([1, 1].length = 2) ∧
    ((([[]], [[]]) : Geom) = plainGeom (Pattern.core [] []) ([1, 1].getLastD 0) 2
          (specOffsetX [1, 1].dropLast, specOffsetY [1, 1].dropLast) ∨
     (([[]], [[]]) : Geom) = connectorGeom (Pattern.core [] []) ([1, 1].getLastD 0) 2
          (specOffsetX [1, 1].dropLast, specOffsetY [1, 1].dropLast)) :=
  c2_scale_and_offset (Pattern.core [] []) 2 [1, 1] ([[]], [[]]) (by decide)

/-- The addresses present at each level, without their geometries. -/
def keysAt : ℕ → List (List ℕ)
  | 0 => []
  | 1 => [[1], [2], [3], [4]]
  | n + 2 => (keysAt (n + 1)).flatMap (fun a => [1, 2, 3, 4].map (fun k => a ++ [k]))

lemma linesAt_map_fst (pat : Pattern) :
    ∀ d, (Steinhaus.linesAt pat d).map Prod.fst = keysAt d := by
  intro d
  induction d with
  | zero => rfl
  | succ n ih =>
    cases n with
    | zero => rfl
    | succ m =>
      simp only [Steinhaus.linesAt, keysAt, Steinhaus.generateLevel, List.map_flatMap,
        List.map_map]
      rw [← ih, List.flatMap_map]
      rfl

lemma keysAt_length : ∀ d, ∀ a ∈ keysAt d, a.length = d := by
  intro d
  induction d with
  | zero => intro a ha; simp [keysAt] at ha
  | succ n ih =>
    cases n with
    | zero => intro a ha; rcases (by simpa [keysAt] using ha :
        a = [1] ∨ a = [2] ∨ a = [3] ∨ a = [4]) with rfl | rfl | rfl | rfl <;> rfl
    | succ m =>
      intro a ha
      simp only [keysAt, List.mem_flatMap, List.mem_map] at ha
      obtain ⟨b, hb, k, -, rfl⟩ := ha
      simp [ih b hb]

lemma keysAt_nodup : ∀ d, (keysAt d).Nodup := by
  intro d
  induction d with
  | zero => exact List.nodup_nil
  | succ n ih =>
    cases n with
    | zero => decide
    | succ m =>
      rw [keysAt, List.nodup_flatMap]
      refine ⟨?_, ?_⟩
      · intro a _
        refine List.Nodup.map ?_ (by decide)
        intro k k' h
        simpa using h
      · refine ih.imp_of_mem ?_
        intro a b ha hb hne x hxa hxb
        simp only [List.mem_map] at hxa hxb
        obtain ⟨k, -, rfl⟩ := hxa
        obtain ⟨k', -, he⟩ := hxb
        have hl : b.length = a.length := by
          rw [keysAt_length _ a ha, keysAt_length _ b hb]
        exact hne (List.append_inj he.symm (by rw [hl])).1

lemma sum_map_ite {α : Type} (l : List α) (q : α → Prop) [DecidablePred q] (n : ℕ) :
    (l.map (fun x => if q x then n else 0)).sum = n * l.countP (fun x => decide (q x)) := by
  induction l with
  | nil => simp
  | cons x xs ih =>
    by_cases h : q x <;> simp [List.countP_cons, h, ih, Nat.mul_succ] <;> try ring

lemma prefix_of_concat {a b : List ℕ} {k : ℕ} (h : a <+: b ++ [k])
    (hle : a.length ≤ b.length) : a <+: b := by
  obtain ⟨t, ht⟩ := h
  have h1 : (b ++ [k]).take a.length = a := by rw [← ht, List.take_left]
  rw [List.take_append_eq_append_take, Nat.sub_eq_zero_of_le hle, List.take_zero,
    List.append_nil] at h1
  rw [← h1]
  exact List.take_prefix _ _

lemma countP_children_of_self (a : List ℕ) :
    ([1, 2, 3, 4].map (fun k => a ++ [k])).countP
      (fun b => decide (a <+: b ∧ ¬b = a)) = 4 := by
  rw [List.countP_map]
  rw [List.countP_eq_length.mpr]
  · rfl
  · intro k _
    simp only [Function.comp_apply, decide_eq_true_eq]
    refine ⟨List.prefix_append a [k], ?_⟩
    intro h
    have := congrArg List.length h
    simp at this

lemma countP_children_of_other (a b : List ℕ) (hne : ¬b = a)
    (hlen : a.length = b.length) :
    ([1, 2, 3, 4].map (fun k => b ++ [k])).countP
      (fun b' => decide (a <+: b' ∧ ¬b' = a)) = 0 := by
  rw [List.countP_map, List.countP_eq_zero]
  intro k _
  simp only [Function.comp_apply, decide_eq_true_eq, not_and]
  intro hpre
  exact absurd ((prefix_of_concat hpre hlen.le).eq_of_length hlen) (fun h => hne h.symm)

lemma countP_eq_one_of_nodup (l : List (List ℕ)) (a : List ℕ) (hnd : l.Nodup)
    (ha : a ∈ l) : l.countP (fun x => decide (x = a)) = 1 := by
  induction l with
  | nil => simp at ha
  | cons x xs ih =>
    rw [List.countP_cons]
    rcases List.mem_cons.mp ha with rfl | hmem
    · have hx : a ∉ xs := (List.nodup_cons.mp hnd).1
      have h0 : xs.countP (fun y => decide (y = a)) = 0 :=
        List.countP_eq_zero.mpr (fun b hb => by
          simp only [decide_eq_true_eq]
          intro hba
          exact hx (hba ▸ hb))
      simp [h0]
    · have hx : ¬(x = a) := fun h => (List.nodup_cons.mp hnd).1 (h ▸ hmem)
      rw [ih (List.nodup_cons.mp hnd).2 hmem]
      simp [hx]

lemma keysAt_strict_prefix_count (d : ℕ) (hd : 1 ≤ d) (a : List ℕ)
    (ha : a ∈ keysAt d) :
    (keysAt (d + 1)).countP (fun b => decide (a <+: b ∧ ¬b = a)) = 4 := by
  obtain ⟨m, rfl⟩ : ∃ m, d = m + 1 := ⟨d - 1, by omega⟩
  rw [show m + 1 + 1 = m + 2 from rfl, keysAt, List.countP_flatMap]
  have hmap : (keysAt (m + 1)).map
      (List.countP (fun b => decide (a <+: b ∧ ¬b = a)) ∘
        (fun b => [1, 2, 3, 4].map (fun k => b ++ [k]))) =
      (keysAt (m + 1)).map (fun b => if b = a then 4 else 0) := by
    apply List.map_congr_left
    intro b hb
    by_cases h : b = a
    · subst h
      simp [countP_children_of_self]
    · have hl : a.length = b.length := by
        rw [keysAt_length _ a ha, keysAt_length _ b hb]
      simp only [Function.comp_apply]
      rw [countP_children_of_other a b h hl, if_neg h]
  rw [hmap, sum_map_ite, countP_eq_one_of_nodup _ a (keysAt_nodup (m + 1)) ha]

lemma keysAt_root_descendant_count (a : List ℕ) (ha : a ∈ keysAt 1) :
    ∀ d, 1 ≤ d → (keysAt d).countP (fun b => decide (a <+: b)) = 4 ^ (d - 1) := by
  have hlen1 : a.length = 1 := keysAt_length 1 a ha
  intro d
  induction d with
  | zero => intro h; omega
  | succ n ih =>
    intro _
    cases n with
    | zero =>
      rcases (by simpa [keysAt] using ha : a = [1] ∨ a = [2] ∨ a = [3] ∨ a = [4]) with
        rfl | rfl | rfl | rfl <;> decide
    | succ m =>
      rw [show m + 1 + 1 = m + 2 from rfl, keysAt, List.countP_flatMap]
      have hmap : (keysAt (m + 1)).map
          (List.countP (fun b => decide (a <+: b)) ∘
            (fun b => [1, 2, 3, 4].map (fun k => b ++ [k]))) =
          (keysAt (m + 1)).map (fun b => if a <+: b then 4 else 0) := by
        apply List.map_congr_left
        intro b hb
        simp only [Function.comp_apply, List.countP_map]
        by_cases h : a <+: b
        · rw [if_pos h, List.countP_eq_length.mpr]
          · rfl
          · intro k _
            simp only [Function.comp_apply, decide_eq_true_eq]
            exact h.trans (List.prefix_append b [k])
        · rw [if_neg h, List.countP_eq_zero]
          intro k _
          simp only [Function.comp_apply, decide_eq_true_eq]
          intro hpre
          exact h (prefix_of_concat hpre (by rw [hlen1, keysAt_length _ b hb]; omega))
      rw [hmap, sum_map_ite, ih (by omega)]
      simp only [Nat.add_sub_cancel]
      rw [← pow_succ']
      congr 1

lemma sum_map_const {α : Type} (l : List α) (n : ℕ) :
    (l.map (fun _ => n)).sum = n * l.length := by
  induction l with
  | nil => simp
  | cons x xs ih =>
    simp [ih, Nat.mul_succ]
    ring

lemma keysAt_total_count : ∀ d, 1 ≤ d → (keysAt d).length = 4 ^ d := by
  intro d
  induction d with
  | zero => intro h; exact absurd h (by omega)
  | succ n ih =>
    intro _
    cases n with
    | zero => decide
    | succ m =>
      rw [show m + 1 + 1 = m + 2 from rfl, keysAt, List.length_flatMap]
      have hmap : (keysAt (m + 1)).map
          (List.length ∘ (fun b => [1, 2, 3, 4].map (fun k => b ++ [k]))) =
          (keysAt (m + 1)).map (fun _ => 4) := by
        apply List.map_congr_left
        intro b _
        simp
      rw [hmap, sum_map_const, ih (by omega), pow_succ]
      ring

/-- C3: for all depths `1 ≤ d1 < d2 ≤` the requested maximum, every address
present at level `d1` is a strict prefix of exactly 4 addresses at level
`d1 + 1`, and each of the 4 level-1 root addresses is a prefix of exactly
`4^(d2-1)` addresses at level `d2`; consequently level `d2` holds exactly
`4 * 4^(d2-1) = 4^d2` addresses in total — no pruning. -/
theorem c3_level_tree (lvl : ℤ) (pat : Pattern) (d1 d2 : ℕ)
    (h1 : 1 ≤ d1) (h12 : d1 < d2) (h2 : (d2 : ℤ) ≤ lvl) :
    (∀ a ∈ (Steinhaus.linesFor lvl pat (d1 : ℤ)).map Prod.fst,
        ((Steinhaus.linesFor lvl pat ((d1 + 1 : ℕ) : ℤ)).map Prod.fst).countP
          (fun b => decide (a <+: b ∧ ¬b = a)) = 4) ∧
    (∀ a ∈ (Steinhaus.linesFor lvl pat 1).map Prod.fst,
        ((Steinhaus.linesFor lvl pat (d2 : ℤ)).map Prod.fst).countP
          (fun b => decide (a <+: b)) = 4 ^ (d2 - 1)) ∧
    (Steinhaus.linesFor lvl pat (d2 : ℤ)).length = 4 ^ d2 := by
  have key : ∀ n : ℕ, 1 ≤ n → (n : ℤ) ≤ lvl →
      Steinhaus.linesFor lvl pat (n : ℤ) = Steinhaus.linesAt pat n := by
    intro n hn hnl
    rw [Steinhaus.linesFor, if_pos (by omega), Int.toNat_natCast]
  have k1 : Steinhaus.linesFor lvl pat (d1 : ℤ) = Steinhaus.linesAt pat d1 :=
    key d1 h1 (by omega)
  have k2 : Steinhaus.linesFor lvl pat ((d1 + 1 : ℕ) : ℤ) =
      Steinhaus.linesAt pat (d1 + 1) :=
    key (d1 + 1) (by omega) (by omega)
  have k3 : Steinhaus.linesFor lvl pat 1 = Steinhaus.linesAt pat 1 := by
    have := key 1 (by omega) (by omega)
    simpa using this
  have k4 : Steinhaus.linesFor lvl pat (d2 : ℤ) = Steinhaus.linesAt pat d2 :=
    key d2 (by omega) h2
  refine ⟨?_, ?_, ?_⟩
  · intro a ha
    rw [k1, linesAt_map_fst] at ha
    rw [k2, linesAt_map_fst]
    exact keysAt_strict_prefix_count d1 h1 a ha
  · intro a ha
    rw [k3, linesAt_map_fst] at ha
    rw [k4, linesAt_map_fst]
    exact keysAt_root_descendant_count a ha d2 (by omega)
  · have htot := keysAt_total_count d2 (by omega)
    rw [← linesAt_map_fst pat d2, List.length_map] at htot
    rw [k4]
    exact htot

/-- Witness for C3 at depth bounds `d1 = 1`, `d2 = 2`, maximum 2, empty
seed. -/
theorem c3_level_tree_witness :
    (∀ a ∈ (Steinhaus.linesFor 2 (Pattern.core [] []) ((1 : ℕ) : ℤ)).map Prod.fst,
        ((Steinhaus.linesFor 2 (Pattern.core [] []) ((1 + 1 : ℕ) : ℤ)).map
            Prod.fst).countP
          (fun b => decide (a <+: b ∧ ¬b = a)) = 4) ∧
    (∀ a ∈ (Steinhaus.linesFor 2 (Pattern.core [] []) 1).map Prod.fst,
        ((Steinhaus.linesFor 2 (Pattern.core [] []) ((2 : ℕ) : ℤ)).map
            Prod.fst).countP
          (fun b => decide (a <+: b)) = 4 ^ (2 - 1)) ∧
    (Steinhaus.linesFor 2 (Pattern.core [] []) ((2 : ℕ) : ℤ)).length = 4 ^ 2 :=
  c3_level_tree 2 (Pattern.core [] []) 1 2 (by decide) (by decide) (by decide)
